import Mathlib

/-!
# Verification of `inventory_system.py`

A shallow embedding of the inventory module: a Python `dict` mapping item
names to integer quantities is modelled as an ordered association list
(Python dicts preserve insertion order, update values in place and append
new keys at the end), Python's dynamically typed arguments are modelled by
the `PyVal` type, a raised `ValueError` by an `Option String` error
component in the result, emitted log records by a `List String` component,
and the file system by a map from path to file state.
-/

namespace InventorySystem

/-- A Python runtime value, as far as `isinstance` checks in the source
distinguish them: an `int`, a `str`, `None`, or anything else. -/
inductive PyVal where
  | int : Int → PyVal
  | str : String → PyVal
  | none : PyVal
  | other : PyVal
deriving DecidableEq, Repr

/-- The inventory: a Python dict from item name to quantity, as an ordered
association list. -/
abbrev Inv := List (String × Int)

/-- `d.get(key)` of a Python dict: the value at `key`, if present. -/
def dictGet : Inv → String → Option Int
  | [], _ => Option.none
  | (k, v) :: rest, key => if k = key then Option.some v else dictGet rest key

/-- `d.get(key, dflt)` of a Python dict. -/
def dictGetD (d : Inv) (key : String) (dflt : Int) : Int :=
  (dictGet d key).getD dflt

/-- `d[key] = v` on a Python dict: update in place if `key` is present
(keeping its position), otherwise append the new entry at the end. -/
def dictSet : Inv → String → Int → Inv
  | [], key, v => [(key, v)]
  | (k, w) :: rest, key, v =>
      if k = key then (key, v) :: rest else (k, w) :: dictSet rest key v

/-- `del d[key]` on a Python dict: drop the entry for `key`. -/
def dictDel : Inv → String → Inv
  | [], _ => []
  | (k, w) :: rest, key => if k = key then rest else (k, w) :: dictDel rest key

/-- A Python dict never has duplicate keys; association lists representing
one satisfy this well-formedness predicate. -/
def InvWF (d : Inv) : Prop := (d.map Prod.fst).Nodup

/-- The validation on `item` in `add_item`:
`isinstance(item, str) and item` (a non-empty string). -/
def itemValid : PyVal → Bool
  | PyVal.str s => s ≠ ""
  | _ => false

/-- The validation on `qty` in `add_item`:
`isinstance(qty, int) and qty >= 0`. -/
def qtyValid : PyVal → Bool
  | PyVal.int q => 0 ≤ q
  | _ => false

/-- `add_item(stock_data, item, qty, logs)` from `inventory_system.py`.
The result is `(raised ValueError, stock_data, logs)`: the first component
is `some` message when the function raises, and since every `raise` in the
source happens before the mutation on line 38, the dict and the log list
are returned unchanged in that case.  `now` stands for `datetime.now()` in
the audit log entry.  (Error/log texts are abbreviated; the claims do not
depend on their exact wording.) -/
def add_item (stock : Inv) (item : PyVal) (qty : PyVal) (logs : List String)
    (now : String) : Option String × Inv × List String :=
  match item with
  | PyVal.str s =>
      if s = "" then
        (Option.some "Item name must be a non-empty string", stock, logs)
      else
        match qty with
        | PyVal.int q =>
            if q < 0 then
              (Option.some "Quantity cannot be negative for add_item.", stock, logs)
            else
              let newStock := dictSet stock s (dictGetD stock s 0 + q)
              let msg := now ++ ": Added " ++ toString q ++ " of " ++ s
              (Option.none, newStock, logs ++ [msg])
        | _ => (Option.some "Quantity must be an integer", stock, logs)
  | _ => (Option.some "Item name must be a non-empty string", stock, logs)

/-- `remove_item(stock_data, item, qty)` from `inventory_system.py`.
Returns the updated dict together with the log records emitted; the
function never raises (its only lookup is inside `try/except KeyError`). -/
def remove_item (stock : Inv) (item : String) (qty : PyVal) :
    Inv × List String :=
  match qty with
  | PyVal.int q =>
      if q < 0 then
        (stock, ["Quantity to remove must be a positive integer."])
      else
        match dictGet stock item with
        | Option.some current =>
            if current - q ≤ 0 then
              (dictDel stock item, ["Removed all stock for " ++ item ++ "."])
            else
              (dictSet stock item (current - q),
               ["Removed " ++ toString q ++ " of " ++ item ++ "."])
        | Option.none =>
            (stock, ["Attempted to remove " ++ item ++ ", but it is not in stock."])
  | _ => (stock, ["Quantity to remove must be a positive integer."])

/-- `get_qty(stock_data, item)` from `inventory_system.py`:
`stock_data.get(item, 0)`. -/
def get_qty (stock : Inv) (item : String) : Int :=
  dictGetD stock item 0

/-- `check_low_items(stock_data, threshold)` from `inventory_system.py`:
`[item for item, qty in stock_data.items() if qty < threshold]`. -/
def check_low_items (stock : Inv) (threshold : Int) : List String :=
  (stock.filter fun p => p.2 < threshold).map Prod.fst

/-- What a read of a path can encounter, matching the `except` arms of
`load_data`: a parseable JSON object with integer values, a missing file,
malformed JSON, or an `IOError` on reading. -/
inductive FileState where
  | json : List (String × Int) → FileState
  | absent : FileState
  | malformed : FileState
  | ioError : FileState
deriving DecidableEq

/-- The file system: contents per path, plus whether opening a path for
writing raises `IOError`. -/
structure FS where
  contents : String → FileState
  writeFails : String → Bool

/-- `load_data(file)` from `inventory_system.py`: returns the parsed JSON
object, or an empty dict (with a warning/error logged) on a missing file,
malformed JSON, or an `IOError`; it never raises. -/
def load_data (file : String) (fs : FS) : Inv × List String :=
  match fs.contents file with
  | FileState.json d => (d, [])
  | FileState.absent =>
      ([], [file ++ " not found. Starting with an empty inventory."])
  | FileState.malformed =>
      ([], ["Could not decode JSON from " ++ file ++ ". Starting with empty inventory."])
  | FileState.ioError =>
      ([], ["Error loading data from " ++ file ++ "."])

/-- `save_data(stock_data, file)` from `inventory_system.py`: writes the
dict as a JSON object (keys in dict order, integer values round-trip
exactly), or logs an error on `IOError` without raising. -/
def save_data (stock : Inv) (file : String) (fs : FS) : FS × List String :=
  if fs.writeFails file then
    (fs, ["Error saving data to " ++ file ++ "."])
  else
    ({ fs with contents := fun p =>
        if p = file then FileState.json stock else fs.contents p }, [])

/-- A mutating call on the inventory dict, for stating properties of
sequences of operations. -/
inductive Op where
  | add : String → Int → String → Op
  | remove : String → PyVal → Op
deriving Repr

/-- Run one mutating call, keeping only the dict (logs discarded). -/
def applyOp (stock : Inv) : Op → Inv
  | Op.add item q now => (add_item stock (PyVal.str item) (PyVal.int q) [] now).2.1
  | Op.remove item q => (remove_item stock item q).1

/-- Run a sequence of mutating calls. -/
def runOps (stock : Inv) : List Op → Inv
  | [] => stock
  | op :: rest => runOps (applyOp stock op) rest

/-- A sequence of valid `add_item` calls on the same item (each call made
with the item as a non-empty string and the quantity as an integer). -/
def addAll (stock : Inv) (item : String) (qs : List Int) : Inv :=
  qs.foldl (fun st q => (add_item st (PyVal.str item) (PyVal.int q) [] "").2.1) stock

/-- The spec's inventory invariant: every entry has a strictly positive
quantity. -/
def InvPos (d : Inv) : Prop := ∀ p ∈ d, 0 < p.2

/-! ## Lemmas about the dict model -/

theorem dictGet_dictSet_self (d : Inv) (k : String) (v : Int) :
    dictGet (dictSet d k v) k = Option.some v := by
  induction d with
  | nil => simp [dictSet, dictGet]
  | cons p rest ih =>
      obtain ⟨k₀, v₀⟩ := p
      by_cases h : k₀ = k
      · simp [dictSet, dictGet, h]
      · simp [dictSet, dictGet, h, ih]

theorem dictGet_dictSet_ne (d : Inv) (k k' : String) (v : Int) (h : k' ≠ k) :
    dictGet (dictSet d k v) k' = dictGet d k' := by
  induction d with
  | nil => simp [dictSet, dictGet, Ne.symm h]
  | cons p rest ih =>
      obtain ⟨k₀, v₀⟩ := p
      by_cases hk : k₀ = k
      · subst hk
        simp [dictSet, dictGet, Ne.symm h]
      · by_cases hk' : k₀ = k'
        · simp [dictSet, dictGet, hk, hk', h]
        · simp [dictSet, dictGet, hk, hk', ih]

theorem dictGet_eq_none_of_not_mem (d : Inv) (k : String)
    (h : k ∉ d.map Prod.fst) : dictGet d k = Option.none := by
  induction d with
  | nil => simp [dictGet]
  | cons p rest ih =>
      obtain ⟨k₀, v₀⟩ := p
      have hne : k₀ ≠ k := by
        intro hc
        exact h (by simp [hc])
      simp only [dictGet, if_neg hne]
      exact ih fun hm => h (by simpa using Or.inr (by simpa using hm))

theorem dictGet_dictDel_self (d : Inv) (k : String) (hwf : InvWF d) :
    dictGet (dictDel d k) k = Option.none := by
  induction d with
  | nil => simp [dictDel, dictGet]
  | cons p rest ih =>
      obtain ⟨k₀, v₀⟩ := p
      have hwf' : InvWF rest := (List.nodup_cons.mp hwf).2
      by_cases h : k₀ = k
      · subst h
        have hnotin : k₀ ∉ rest.map Prod.fst := (List.nodup_cons.mp hwf).1
        simp only [dictDel, if_pos rfl]
        exact dictGet_eq_none_of_not_mem rest k₀ hnotin
      · simp [dictDel, dictGet, h, ih hwf']

theorem dictGet_dictDel_ne (d : Inv) (k k' : String) (h : k' ≠ k) :
    dictGet (dictDel d k) k' = dictGet d k' := by
  induction d with
  | nil => simp [dictDel, dictGet]
  | cons p rest ih =>
      obtain ⟨k₀, v₀⟩ := p
      by_cases hk : k₀ = k
      · subst hk
        simp [dictDel, dictGet, Ne.symm h]
      · simp [dictDel, dictGet, hk, ih]

theorem dictGet_mem (d : Inv) (k : String) (w : Int)
    (h : dictGet d k = Option.some w) : (k, w) ∈ d := by
  induction d with
  | nil => simp [dictGet] at h
  | cons p rest ih =>
      obtain ⟨k₀, v₀⟩ := p
      by_cases hk : k₀ = k
      · subst hk
        simp [dictGet] at h
        subst h
        exact List.mem_cons_self _ _
      · rw [dictGet, if_neg hk] at h
        exact List.mem_cons_of_mem _ (ih h)

theorem mem_dictSet (d : Inv) (k : String) (v : Int) (p : String × Int)
    (hp : p ∈ dictSet d k v) : p ∈ d ∨ p = (k, v) := by
  induction d with
  | nil => simpa [dictSet] using hp
  | cons q rest ih =>
      obtain ⟨k₀, v₀⟩ := q
      by_cases hk : k₀ = k
      · subst hk
        rw [dictSet, if_pos rfl] at hp
        rcases List.mem_cons.mp hp with h | h
        · exact Or.inr h
        · exact Or.inl (List.mem_cons_of_mem _ h)
      · rw [dictSet, if_neg hk] at hp
        rcases List.mem_cons.mp hp with h | h
        · exact Or.inl (h ▸ List.mem_cons_self _ _)
        · rcases ih h with h' | h'
          · exact Or.inl (List.mem_cons_of_mem _ h')
          · exact Or.inr h'

theorem mem_dictDel (d : Inv) (k : String) (p : String × Int)
    (hp : p ∈ dictDel d k) : p ∈ d := by
  induction d with
  | nil => simp [dictDel] at hp
  | cons q rest ih =>
      obtain ⟨k₀, v₀⟩ := q
      by_cases hk : k₀ = k
      · subst hk
        rw [dictDel, if_pos rfl] at hp
        exact List.mem_cons_of_mem _ hp
      · rw [dictDel, if_neg hk] at hp
        rcases List.mem_cons.mp hp with h | h
        · exact h ▸ List.mem_cons_self _ _
        · exact List.mem_cons_of_mem _ (ih h)

theorem InvPos_dictSet (d : Inv) (k : String) (v : Int)
    (hd : InvPos d) (hv : 0 < v) : InvPos (dictSet d k v) := by
  intro p hp
  rcases mem_dictSet d k v p hp with h | h
  · exact hd p h
  · rw [h]
    exact hv

theorem InvPos_dictDel (d : Inv) (k : String) (hd : InvPos d) :
    InvPos (dictDel d k) := fun p hp => hd p (mem_dictDel d k p hp)

theorem InvPos_dictGetD_nonneg (d : Inv) (k : String) (hd : InvPos d) :
    0 ≤ dictGetD d k 0 := by
  unfold dictGetD
  cases h : dictGet d k with
  | none => simp
  | some w =>
      simpa using le_of_lt (hd (k, w) (dictGet_mem d k w h))

/-- On valid arguments, `add_item` raises nothing, stores the incremented
quantity and appends one audit log entry. -/
theorem add_item_valid_eq (stock : Inv) (s : String) (q : Int)
    (logs : List String) (now : String)
    (hs : s ≠ "") (hq : 0 ≤ q) :
    add_item stock (PyVal.str s) (PyVal.int q) logs now =
      (Option.none, dictSet stock s (dictGetD stock s 0 + q),
       logs ++ [now ++ ": Added " ++ toString q ++ " of " ++ s]) := by
  simp [add_item, hs, show ¬ q < 0 by omega]

/-- An operation whose `add` quantity (if it is an `add`) is strictly
positive. -/
def addQtyPos : Op → Bool
  | Op.add _ q _ => 0 < q
  | Op.remove _ _ => true

theorem InvPos_applyOp (stock : Inv) (op : Op)
    (hd : InvPos stock) (hop : addQtyPos op = true) :
    InvPos (applyOp stock op) := by
  cases op with
  | add i q n =>
      have hq : 0 < q := by simpa [addQtyPos] using hop
      by_cases hi : i = ""
      · simp [applyOp, add_item, hi]
        exact hd
      · rw [applyOp,
          add_item_valid_eq stock i q [] n hi (le_of_lt hq)]
        exact InvPos_dictSet _ _ _ hd
          (by have := InvPos_dictGetD_nonneg stock i hd; omega)
  | remove i q =>
      cases q with
      | int qv =>
          by_cases hneg : qv < 0
          · simp [applyOp, remove_item, hneg]
            exact hd
          · cases hget : dictGet stock i with
            | none =>
                simp [applyOp, remove_item, hneg, hget]
                exact hd
            | some c =>
                by_cases hle : c - qv ≤ 0
                · simp [applyOp, remove_item, hneg, hget, hle]
                  exact InvPos_dictDel _ _ hd
                · simp [applyOp, remove_item, hneg, hget, hle]
                  exact InvPos_dictSet _ _ _ hd (by omega)
      | str s => simp [applyOp, remove_item]; exact hd
      | none => simp [applyOp, remove_item]; exact hd
      | other => simp [applyOp, remove_item]; exact hd

theorem InvPos_runOps (stock : Inv) (ops : List Op)
    (hd : InvPos stock) (hops : ∀ op ∈ ops, addQtyPos op = true) :
    InvPos (runOps stock ops) := by
  induction ops generalizing stock with
  | nil => exact hd
  | cons op rest ih =>
      rw [runOps]
      exact ih (applyOp stock op)
        (InvPos_applyOp stock op hd (hops op (List.mem_cons_self _ _)))
        (fun o ho => hops o (List.mem_cons_of_mem _ ho))

theorem get_qty_addAll (stock : Inv) (s : String) (qs : List Int)
    (hs : s ≠ "") (hqs : ∀ x ∈ qs, 0 ≤ x) :
    get_qty (addAll stock s qs) s = get_qty stock s + qs.sum := by
  induction qs generalizing stock with
  | nil => simp [addAll]
  | cons q rest ih =>
      have hq : 0 ≤ q := hqs q (List.mem_cons_self _ _)
      have hstep : addAll stock s (q :: rest) =
          addAll (dictSet stock s (dictGetD stock s 0 + q)) s rest := by
        rw [addAll, List.foldl_cons,
          add_item_valid_eq stock s q [] "" hs hq]
        rfl
      rw [hstep, ih _ (fun x hx => hqs x (List.mem_cons_of_mem _ hx))]
      have hget : get_qty (dictSet stock s (dictGetD stock s 0 + q)) s =
          get_qty stock s + q := by
        rw [get_qty, dictGetD, dictGet_dictSet_self]
        rfl
      rw [hget, List.sum_cons]
      ring

/-! ## Claim theorems -/

/-- Claim C1: for every inventory, non-empty string item and non-negative
integer qty, `add_item` raises nothing, increases the stored quantity of
the item (0 when absent) by exactly qty, leaves every other entry
unchanged, and a sequence of such calls on the same item accumulates: the
final `get_qty` is the initial quantity plus the sum of the added
quantities. -/
theorem add_item_increments_and_accumulates (stock : Inv) (s : String)
    (q : Int) (logs : List String) (now : String) (qs : List Int)
    (hs : s ≠ "") (hq : 0 ≤ q) (hqs : ∀ x ∈ qs, 0 ≤ x) :
    (add_item stock (PyVal.str s) (PyVal.int q) logs now).1 = Option.none ∧
    get_qty (add_item stock (PyVal.str s) (PyVal.int q) logs now).2.1 s =
      get_qty stock s + q ∧
    (∀ k, k ≠ s →
      dictGet (add_item stock (PyVal.str s) (PyVal.int q) logs now).2.1 k =
        dictGet stock k) ∧
    get_qty (addAll stock s qs) s = get_qty stock s + qs.sum := by
  rw [add_item_valid_eq stock s q logs now hs hq]
  refine ⟨rfl, ?_, ?_, get_qty_addAll stock s qs hs hqs⟩
  · rw [get_qty, dictGetD, dictGet_dictSet_self]
    rfl
  · intro k hk
    exact dictGet_dictSet_ne stock s k _ hk

/-- Witness for C1 at a concrete inventory and quantity list. -/
theorem add_item_increments_and_accumulates_witness :
    get_qty (addAll [("apple", (1 : Int))] "apple" [3, 4]) "apple" =
      get_qty [("apple", (1 : Int))] "apple" + ([3, 4] : List Int).sum :=
  (add_item_increments_and_accumulates [("apple", 1)] "apple" 0 [] "" [3, 4]
    (by decide) (by decide) (by decide)).2.2.2

/-- Claim C2 fails as stated: a single valid `add_item` call with qty `0`
on the empty inventory creates and retains a zero-quantity entry, so the
invariant that every entry is strictly positive does not survive every
sequence of valid operations. -/
theorem invariant_counterexample_add_zero :
    ¬ InvPos (add_item ([] : Inv) (PyVal.str "apple") (PyVal.int 0) [] "t").2.1 := by
  intro h
  have hmem : (("apple" : String), (0 : Int)) ∈
      (add_item ([] : Inv) (PyVal.str "apple") (PyVal.int 0) [] "t").2.1 := by
    rw [add_item_valid_eq ([] : Inv) "apple" 0 [] "t" (by decide) le_rfl]
    simp [dictSet, dictGetD, dictGet]
  exact absurd (h _ hmem) (by norm_num)

/-- Claim C2 (amended): starting from a mapping all of whose entries are
strictly positive (in particular the empty one), any sequence of
`add_item` and `remove_item` calls in which every add uses a strictly
positive qty leaves every entry strictly positive; the query and save
operations do not modify the mapping. -/
theorem invariant_preserved_by_positive_ops (stock : Inv) (ops : List Op)
    (hd : InvPos stock) (hops : ∀ op ∈ ops, addQtyPos op = true) :
    InvPos (runOps stock ops) := by
  induction ops generalizing stock with
  | nil => exact hd
  | cons op rest ih =>
      rw [runOps]
      exact ih (applyOp stock op)
        (InvPos_applyOp stock op hd (hops op (List.mem_cons_self _ _)))
        (fun o ho => hops o (List.mem_cons_of_mem _ ho))

/-- Witness for the amended C2 on a concrete operation sequence. -/
theorem invariant_preserved_by_positive_ops_witness :
    InvPos (runOps ([] : Inv)
      [Op.add "apple" 5 "t", Op.remove "apple" (PyVal.int 2)]) :=
  invariant_preserved_by_positive_ops [] _
    (fun p hp => absurd hp (List.not_mem_nil p)) (by decide)

/-- Claim C3: when the item is present with quantity `c` and qty is a
non-negative integer `q`, `remove_item` deletes the entry if `c - q ≤ 0`
(so `get_qty` then returns 0) and otherwise stores `c - q`. -/
theorem remove_item_deletes_or_decrements (stock : Inv) (item : String)
    (c q : Int) (hwf : InvWF stock) (hc : dictGet stock item = Option.some c)
    (hq : 0 ≤ q) :
    (c - q ≤ 0 →
      dictGet (remove_item stock item (PyVal.int q)).1 item = Option.none ∧
      get_qty (remove_item stock item (PyVal.int q)).1 item = 0) ∧
    (0 < c - q →
      dictGet (remove_item stock item (PyVal.int q)).1 item =
        Option.some (c - q)) := by
  have hneg : ¬ q < 0 := by omega
  constructor
  · intro hle
    have hres : (remove_item stock item (PyVal.int q)).1 = dictDel stock item := by
      simp [remove_item, hneg, hc, hle]
    rw [hres]
    refine ⟨dictGet_dictDel_self stock item hwf, ?_⟩
    rw [get_qty, dictGetD, dictGet_dictDel_self stock item hwf]
    rfl
  · intro hlt
    have hres : (remove_item stock item (PyVal.int q)).1 =
        dictSet stock item (c - q) := by
      simp [remove_item, hneg, hc, show ¬ c - q ≤ 0 by omega]
    rw [hres]
    exact dictGet_dictSet_self stock item (c - q)

/-- Witness for C3: removing 7 of 5 apples deletes the entry; removing 2
of 5 pears stores 3. -/
theorem remove_item_deletes_or_decrements_witness :
    dictGet (remove_item [("apple", (5 : Int))] "apple" (PyVal.int 7)).1
      "apple" = Option.none ∧
    dictGet (remove_item [("pear", (5 : Int))] "pear" (PyVal.int 2)).1
      "pear" = Option.some 3 :=
  ⟨((remove_item_deletes_or_decrements [("apple", 5)] "apple" 5 7
      (by unfold InvWF; decide) (by decide) (by decide)).1 (by decide)).1,
   (remove_item_deletes_or_decrements [("pear", 5)] "pear" 5 2
      (by unfold InvWF; decide) (by decide) (by decide)).2 (by decide)⟩

/-- Claim C4: `remove_item` never raises; on an invalid qty (not a
non-negative integer) or an absent item it leaves the mapping unchanged
and emits a warning record. -/
theorem remove_item_noop_on_invalid_or_absent (stock : Inv) (item : String)
    (qty : PyVal) :
    (qtyValid qty = false →
      (remove_item stock item qty).1 = stock ∧
      (remove_item stock item qty).2 ≠ []) ∧
    (dictGet stock item = Option.none →
      (remove_item stock item qty).1 = stock ∧
      (remove_item stock item qty).2 ≠ []) := by
  constructor
  · intro h
    cases qty with
    | int q =>
        have hneg : q < 0 := by
          simp [qtyValid] at h
          omega
        simp [remove_item, hneg]
    | str s => simp [remove_item]
    | none => simp [remove_item]
    | other => simp [remove_item]
  · intro h
    cases qty with
    | int q =>
        by_cases hneg : q < 0
        · simp [remove_item, hneg]
        · simp [remove_item, hneg, h]
    | str s => simp [remove_item]
    | none => simp [remove_item]
    | other => simp [remove_item]

/-- Witness for C4: a non-integer qty and an absent item both leave the
mapping untouched. -/
theorem remove_item_noop_on_invalid_or_absent_witness :
    (remove_item [("apple", (5 : Int))] "apple" PyVal.other).1 =
      [("apple", 5)] ∧
    (remove_item [("apple", (5 : Int))] "pear" (PyVal.int 1)).1 =
      [("apple", 5)] :=
  ⟨((remove_item_noop_on_invalid_or_absent [("apple", 5)] "apple"
      PyVal.other).1 (by decide)).1,
   ((remove_item_noop_on_invalid_or_absent [("apple", 5)] "pear"
      (PyVal.int 1)).2 (by decide)).1⟩

/-- Claim C5: `add_item` raises a `ValueError` exactly when the item is
not a non-empty string or the qty is not a non-negative integer; on valid
arguments it returns normally. -/
theorem add_item_raises_iff_invalid (stock : Inv) (item qty : PyVal)
    (logs : List String) (now : String) :
    (add_item stock item qty logs now).1.isSome = true ↔
      (itemValid item = false ∨ qtyValid qty = false) := by
  cases item with
  | str s =>
      by_cases hs : s = ""
      · simp [add_item, itemValid, qtyValid, hs]
      · cases qty with
        | int q =>
            by_cases hq : q < 0
            · simp [add_item, itemValid, qtyValid, hs, hq,
                show ¬ (0 : Int) ≤ q by omega]
            · simp [add_item, itemValid, qtyValid, hs, hq,
                show (0 : Int) ≤ q by omega]
        | str t => simp [add_item, itemValid, qtyValid, hs]
        | none => simp [add_item, itemValid, qtyValid, hs]
        | other => simp [add_item, itemValid, qtyValid, hs]
  | int n => simp [add_item, itemValid]
  | none => simp [add_item, itemValid]
  | other => simp [add_item, itemValid]

/-- Claim C6: `get_qty` is total: it returns the stored quantity of a
present item and `0` for an absent one (the lookup uses `dict.get`, so no
exception can arise). -/
theorem get_qty_present_or_default (stock : Inv) (item : String) :
    (∀ v, dictGet stock item = Option.some v → get_qty stock item = v) ∧
    (dictGet stock item = Option.none → get_qty stock item = 0) := by
  constructor
  · intro v h
    rw [get_qty, dictGetD, h]
    rfl
  · intro h
    rw [get_qty, dictGetD, h]
    rfl

/-- Witness for C6 on a present and on an absent item. -/
theorem get_qty_present_or_default_witness :
    get_qty [("apple", (3 : Int))] "apple" = 3 ∧
    get_qty ([] : Inv) "pear" = 0 :=
  ⟨(get_qty_present_or_default [("apple", 3)] "apple").1 3 (by decide),
   (get_qty_present_or_default [] "pear").2 (by decide)⟩

theorem mem_check_low_items_iff (stock : Inv) (t : Int) (i : String)
    (hwf : InvWF stock) :
    i ∈ check_low_items stock t ↔
      ∃ q, dictGet stock i = Option.some q ∧ q < t := by
  induction stock with
  | nil => simp [check_low_items, dictGet]
  | cons p rest ih =>
      obtain ⟨k, v⟩ := p
      have hwf' : InvWF rest := (List.nodup_cons.mp hwf).2
      have hnotin : k ∉ rest.map Prod.fst := (List.nodup_cons.mp hwf).1
      have hsubl : List.Sublist (check_low_items rest t)
          (rest.map Prod.fst) :=
        List.Sublist.map Prod.fst (List.filter_sublist rest)
      by_cases hk : k = i
      · subst hk
        have hnot : k ∉ check_low_items rest t := fun hmem =>
          hnotin (hsubl.mem hmem)
        by_cases hv : v < t
        · simp [check_low_items, List.filter_cons, hv, dictGet]
        · simp only [check_low_items, List.filter_cons] at *
          simp [hv, dictGet, hnot]
      · have hgot : dictGet ((k, v) :: rest) i = dictGet rest i := by
          rw [dictGet, if_neg hk]
        rw [hgot, ← ih hwf']
        simp only [check_low_items, List.filter_cons]
        by_cases hv : v < t
        · simp [hv, Ne.symm hk]
        · simp [hv]

/-- Claim C7: `check_low_items` returns exactly the items whose stored
quantity is strictly below the threshold, in the iteration order of the
mapping (its result is a sublist of the key sequence). -/
theorem check_low_items_exact (stock : Inv) (t : Int) (hwf : InvWF stock) :
    (∀ i, i ∈ check_low_items stock t ↔
        ∃ q, dictGet stock i = Option.some q ∧ q < t) ∧
    List.Sublist (check_low_items stock t) (stock.map Prod.fst) :=
  ⟨fun i => mem_check_low_items_iff stock t i hwf,
   List.Sublist.map Prod.fst (List.filter_sublist stock)⟩

/-- Witness for C7: an item strictly below the threshold is reported. -/
theorem check_low_items_exact_witness :
    "apple" ∈ check_low_items [("apple", (2 : Int)), ("pear", (9 : Int))] 5 :=
  ((check_low_items_exact [("apple", 2), ("pear", 9)] 5
      (by unfold InvWF; decide)).1 "apple").mpr ⟨2, by decide, by decide⟩

/-- Claim C8: saving an inventory to a path on which writing succeeds and
then loading from the same path reproduces the same mapping (and the load
logs nothing). -/
theorem save_then_load_roundtrip (stock : Inv) (file : String) (fs : FS)
    (h : fs.writeFails file = false) :
    load_data file (save_data stock file fs).1 = (stock, []) := by
  simp [save_data, load_data, h]

/-- Witness for C8 on a concrete file system. -/
theorem save_then_load_roundtrip_witness :
    load_data "inventory.json"
      (save_data [("apple", (10 : Int))] "inventory.json"
        ⟨fun _ => FileState.absent, fun _ => false⟩).1 =
      ([("apple", 10)], []) :=
  save_then_load_roundtrip [("apple", 10)] "inventory.json"
    ⟨fun _ => FileState.absent, fun _ => false⟩ rfl

/-- Claim C9: `load_data` never raises on a missing file, malformed JSON
or a read `IOError`: in each case it returns the empty mapping and logs a
warning or error record. -/
theorem load_data_recovers_to_empty (file : String) (fs : FS) :
    (fs.contents file = FileState.absent →
      (load_data file fs).1 = [] ∧ (load_data file fs).2 ≠ []) ∧
    (fs.contents file = FileState.malformed →
      (load_data file fs).1 = [] ∧ (load_data file fs).2 ≠ []) ∧
    (fs.contents file = FileState.ioError →
      (load_data file fs).1 = [] ∧ (load_data file fs).2 ≠ []) := by
  refine ⟨fun h => ?_, fun h => ?_, fun h => ?_⟩ <;> simp [load_data, h]

/-- Witness for C9 on a missing file. -/
theorem load_data_recovers_to_empty_witness :
    (load_data "inventory.json"
      ⟨fun _ => FileState.absent, fun _ => false⟩).1 = [] :=
  ((load_data_recovers_to_empty "inventory.json"
      ⟨fun _ => FileState.absent, fun _ => false⟩).1 rfl).1

/-- Claim C10: on any invalid argument pair, `add_item` raises before
mutating anything, so the mapping and the log list are returned exactly
as they were. -/
theorem add_item_atomic_on_error (stock : Inv) (item qty : PyVal)
    (logs : List String) (now : String)
    (h : itemValid item = false ∨ qtyValid qty = false) :
    (add_item stock item qty logs now).1.isSome = true ∧
    (add_item stock item qty logs now).2.1 = stock ∧
    (add_item stock item qty logs now).2.2 = logs := by
  cases item with
  | str s =>
      by_cases hs : s = ""
      · simp [add_item, hs]
      · cases qty with
        | int q =>
            have hq : q < 0 := by
              rcases h with h | h
              · rw [show itemValid (PyVal.str s) = true by simp [itemValid, hs]]
                  at h
                cases h
              · simp [qtyValid] at h
                omega
            simp [add_item, hs, hq]
        | str t => simp [add_item, hs]
        | none => simp [add_item, hs]
        | other => simp [add_item, hs]
  | int n => simp [add_item]
  | none => simp [add_item]
  | other => simp [add_item]

/-- Witness for C10, mirroring the demo call `add_item(stock, 123, "ten")`. -/
theorem add_item_atomic_on_error_witness :
    (add_item [("apple", (5 : Int))] (PyVal.int 3) (PyVal.str "ten")
      ["L"] "t").1.isSome = true ∧
    (add_item [("apple", (5 : Int))] (PyVal.int 3) (PyVal.str "ten")
      ["L"] "t").2.1 = [("apple", 5)] ∧
    (add_item [("apple", (5 : Int))] (PyVal.int 3) (PyVal.str "ten")
      ["L"] "t").2.2 = ["L"] :=
  add_item_atomic_on_error [("apple", 5)] (PyVal.int 3) (PyVal.str "ten")
    ["L"] "t" (by decide)

end InventorySystem
